import Mathlib

/-!
Verification of the outline-normalising parser (src/parsing.rs).

The parsing pass itself (`parse_document`, `determine_new_header_indent`,
`determine_new_bullet_point_indent`, `parse_text_line`) is translated from
the Rust source.  The data model it relies on (`RawLine`, `LineType`,
`FormattedLine`, `Block`, `Document`) is not part of the provided sources,
so those definitions are modelled from the specification, as marked by
their doc comments.
-/

/-! ## Character-list helpers -/

/-- Modelled from the spec: whitespace test used for indentation counting and
trimming.  Rust uses Unicode whitespace; the model restricts to the ASCII
whitespace characters that can occur on a text line. -/
def isWs (c : Char) : Bool :=
  c = ' ' || c = '\t' || c = '\r' || c = '\n'

/-- Number of leading whitespace characters of a character list. -/
def countLeadWs : List Char → Nat
  | [] => 0
  | c :: cs => if isWs c then countLeadWs cs + 1 else 0

/-- Number of leading space characters of a character list. -/
def leadingSpacesList : List Char → Nat
  | [] => 0
  | c :: cs => if c = ' ' then leadingSpacesList cs + 1 else 0

/-- Number of leading hash marks of a character list. -/
def countLeadHash : List Char → Nat
  | [] => 0
  | c :: cs => if c = '#' then countLeadHash cs + 1 else 0

/-- Remove leading and trailing whitespace from a character list. -/
def trimList (l : List Char) : List Char :=
  ((l.dropWhile isWs).reverse.dropWhile isWs).reverse

/-- Does the character list start with the characters of `p`? -/
def strStarts (p : String) (l : List Char) : Bool :=
  p.data.isPrefixOf l

/-- Split a character list at newline characters.  Always returns at least
one piece; a trailing newline yields a trailing empty piece. -/
def splitNl : List Char → List (List Char)
  | [] => [[]]
  | c :: rest =>
    if c = '\n' then [] :: splitNl rest
    else
      match splitNl rest with
      | [] => [[c]]
      | h :: t => (c :: h) :: t

/-- Remove one trailing carriage return, if present. -/
def stripCR (l : List Char) : List Char :=
  if l.getLast? = some '\r' then l.dropLast else l

/-- Apply `f` to every element except the last one. -/
def mapExceptLast (f : List Char → List Char) : List (List Char) → List (List Char)
  | [] => []
  | [x] => [x]
  | x :: xs => f x :: mapExceptLast f xs

/-- Join character lists with newline separators. -/
def ljoin : List (List Char) → List Char
  | [] => []
  | [x] => x
  | x :: xs => x ++ '\n' :: ljoin xs

/-- Modelled from the spec: the external collaborator splits the input text
on line boundaries.  This mirrors the Rust iterator `str::lines`: split at
newline characters, strip a carriage return at the end of every piece that
was terminated by a newline, and drop the empty piece after a final
newline. -/
def rustLines (s : String) : List String :=
  let parts := splitNl s.data
  let parts := mapExceptLast stripCR parts
  let parts := if parts.getLast? = some [] then parts.dropLast else parts
  parts.map String.mk

/-- Modelled from the spec: the external collaborator joins the rendered
lines with newline separators to produce the output text. -/
def joinLines (ls : List String) : String :=
  String.mk (ljoin (ls.map String.data))

/-! ## Line classification data model -/

/-- Modelled from the spec: the closed set of line classifications. -/
inductive LineType where
  | Header
  | ListBulletPoint
  | ListTodoItem
  | Text
  | ListContinuousLine
  | Preformatted
deriving DecidableEq

/-- Modelled from the spec: the literal prefix a line type contributes when
rendering contents.  Only the `ListContinuousLine` prefix is observable in
the parsing core (a continuation line is re-indented under its list item by
two spaces); the remaining types carry their markers inside the trimmed
text, so their prefix is empty. -/
def LineType.get_prefix : LineType → String
  | LineType.ListContinuousLine => "  "
  | _ => ""

/-- The continuation-line prefix, two spaces. -/
def contPrefix : String := LineType.get_prefix LineType.ListContinuousLine

/-- Modelled from the spec: immutable snapshot of one source line with its
raw indentation and trimmed text. -/
structure RawLine where
  num_indent : Nat
  trimmed : String
deriving DecidableEq

/-- Modelled from the spec: decompose one source line.  `trimmed` is the
line with surrounding whitespace removed.  `num_indent` is the count of
leading whitespace columns; for a header line the raw depth is expressed by
its leading header marks (spec §8 Scenario B compares header lines by the
number of their `#` marks), so there `num_indent` counts those marks. -/
def RawLine.from_string (line : String) : RawLine :=
  let t := trimList line.data
  { num_indent := if strStarts "#" t then countLeadHash t else countLeadWs line.data
    trimmed := String.mk t }

/-- Modelled from the spec: a header line starts (after trimming) with the
header marker. -/
def RawLine.is_header (r : RawLine) : Bool :=
  strStarts "#" r.trimmed.data

/-- Modelled from the spec: a bullet list item starts with a dash marker. -/
def RawLine.is_bullet (r : RawLine) : Bool :=
  strStarts "- " r.trimmed.data

/-- Modelled from the spec: a task (TODO) item starts with a checkbox
marker. -/
def RawLine.is_todo (r : RawLine) : Bool :=
  strStarts "[ ]" r.trimmed.data || strStarts "[x]" r.trimmed.data

/-- Modelled from the spec: a list item is a bullet or a task item. -/
def RawLine.is_list_item (r : RawLine) : Bool :=
  r.is_bullet || r.is_todo

/-- Modelled from the spec: a fenced-filetype marker line. -/
def RawLine.contains_marker (r : RawLine) : Bool :=
  strStarts "```" r.trimmed.data

/-- Modelled from the spec: emptiness is the trimmed text having zero
length. -/
def RawLine.is_empty (r : RawLine) : Bool :=
  r.trimmed = ""

/-- Modelled from the spec: a raw line paired with its resolved nesting
depth, classification and rendered contents. -/
structure FormattedLine where
  indent_level : Nat
  line_type : LineType
  contents : String
  original_raw : RawLine
deriving DecidableEq

/-- Modelled from the spec: resolve a raw line at a given indent level.  The
type follows the classification predicates; the markers are part of the
trimmed text, which becomes the rendered contents. -/
def FormattedLine.from_raw (raw : RawLine) (indent_level : Nat) : FormattedLine :=
  { indent_level := indent_level
    line_type :=
      if raw.is_header then LineType.Header
      else if raw.is_bullet then LineType.ListBulletPoint
      else if raw.is_todo then LineType.ListTodoItem
      else LineType.Text
    contents := raw.trimmed
    original_raw := raw }

/-- Modelled from the spec: a formatted line is a list item when it was
classified as a bullet or task item. -/
def FormattedLine.is_list_item (f : FormattedLine) : Bool :=
  f.line_type = LineType.ListBulletPoint || f.line_type = LineType.ListTodoItem

/-! ## Block and Document containers -/

/-- Modelled from the spec: one optional header line plus the ordered body
lines subordinate to it.  The header is absent only for the implicit
leading block. -/
structure Block where
  header : Option FormattedLine
  lines : List FormattedLine
deriving DecidableEq

/-- Modelled from the spec: a block created from a header line. -/
def Block.new (header : FormattedLine) : Block :=
  { header := some header, lines := [] }

/-- The implicit headerless block present at document start. -/
def Block.empty : Block :=
  { header := none, lines := [] }

/-- Modelled from the spec: the indent level of a block with a header is the
header level plus one, else zero. -/
def Block.contents_indent_level (b : Block) : Nat :=
  match b.header with
  | some h => h.indent_level + 1
  | none => 0

/-- Modelled from the spec: the raw indentation of the block header; defined
only when a header exists, zero for the implicit headerless block. -/
def Block.raw_header_indent (b : Block) : Nat :=
  match b.header with
  | some h => h.original_raw.num_indent
  | none => 0

/-- Modelled from the spec: whether the block has a header. -/
def Block.has_header (b : Block) : Bool :=
  b.header.isSome

/-- Modelled from the spec: the most recently appended body line. -/
def Block.last_line (b : Block) : Option FormattedLine :=
  b.lines.getLast?

/-- Modelled from the spec: append a body line. -/
def Block.add_line (b : Block) (l : FormattedLine) : Block :=
  { b with lines := b.lines ++ [l] }

/-- Modelled from the spec: the most recent prior body line of the given
type, searching backward. -/
def Block.find_previous_of (b : Block) (t : LineType) : Option FormattedLine :=
  b.lines.reverse.find? (fun l => l.line_type = t)

/-- Modelled from the spec: the most recent prior body line whose original
raw indent equals `n`, searching backward. -/
def Block.find_latest_line_with_raw_indent (b : Block) (n : Nat) : Option FormattedLine :=
  b.lines.reverse.find? (fun l => l.original_raw.num_indent = n)

/-- Modelled from the spec: the ordered sequence of blocks, beginning with
one implicit headerless block. -/
structure Document where
  blocks : List Block
deriving DecidableEq

/-- Modelled from the spec: a new document holds the implicit headerless
block. -/
def Document.new : Document :=
  { blocks := [Block.empty] }

/-- Modelled from the spec: the block currently being filled. -/
def Document.last_block (d : Document) : Block :=
  d.blocks.getLastD Block.empty

/-- Modelled from the spec: append a block. -/
def Document.add_block (d : Document) (b : Block) : Document :=
  { blocks := d.blocks ++ [b] }

/-- Modelled from the spec: mutate the block currently being filled. -/
def Document.updateLast (d : Document) (f : Block → Block) : Document :=
  { blocks := d.blocks.dropLast ++ [f d.last_block] }

/-- Modelled from the spec: the most recent prior block whose header raw
indent equals `n`, searching backward and skipping the headerless block. -/
def Document.find_latest_block_with_raw_indent (d : Document) (n : Nat) : Option Block :=
  d.blocks.reverse.find? (fun b => b.header.any (fun h => h.original_raw.num_indent = n))

/-! ## The parsing pass (translated from src/parsing.rs) -/

/-- The fence-mode state of the parser (src/parsing.rs, `enum Context`). -/
inductive Context where
  | Normal
  | HandlingFencedFiletype (base_indent : Nat)
deriving DecidableEq

/-- The full parser state: the document being built plus the fence mode. -/
structure ParseState where
  document : Document
  context : Context
deriving DecidableEq

/-- Determines if the given line is a child, sibling or parent of the
previous block header (src/parsing.rs lines 85-103).  The Rust `assert` is
modelled separately by `determine_new_header_indent_checked`. -/
def determine_new_header_indent (document : Document) (raw_line : RawLine) : Nat :=
  let previous_block := document.last_block
  match compare previous_block.raw_header_indent raw_line.num_indent with
  | Ordering.eq => previous_block.contents_indent_level - 1
  | Ordering.gt =>
    ((document.find_latest_block_with_raw_indent raw_line.num_indent).map
      (fun block => block.contents_indent_level - 1)).getD 0
  | Ordering.lt => previous_block.contents_indent_level

/-- The previous list item used by the bullet-point indent computation: the
most recent prior bullet line or, failing that, the most recent prior todo
line (src/parsing.rs lines 108-110). -/
def previousListItem (current_block : Block) : Option FormattedLine :=
  (current_block.find_previous_of LineType.ListBulletPoint).orElse
    (fun _ => current_block.find_previous_of LineType.ListTodoItem)

/-- Indent determination for list items (src/parsing.rs lines 105-142).
The Rust `assert` is modelled separately by
`determine_new_bullet_point_indent_checked`. -/
def determine_new_bullet_point_indent (current_block : Block) (raw_line : RawLine) : Nat :=
  match previousListItem current_block with
  | some previous_list_item =>
    match compare previous_list_item.original_raw.num_indent raw_line.num_indent with
    | Ordering.eq => previous_list_item.indent_level
    | Ordering.gt =>
      ((current_block.find_latest_line_with_raw_indent raw_line.num_indent).map
        (fun line => line.indent_level)).getD current_block.contents_indent_level
    | Ordering.lt => previous_list_item.indent_level + 1
  | none =>
    match current_block.find_previous_of LineType.Text with
    | some previous_text => previous_text.indent_level
    | none => current_block.contents_indent_level

/-- Resolution of plain lines (src/parsing.rs lines 144-171). -/
def parse_text_line (current_block : Block) (raw_line : RawLine) : FormattedLine :=
  match current_block.last_line with
  | some previous_line =>
    if previous_line.is_list_item && !raw_line.is_empty then
      { indent_level := previous_line.indent_level
        line_type := LineType.ListContinuousLine
        contents := String.mk (contPrefix.data ++ raw_line.trimmed.data)
        original_raw := raw_line }
    else if current_block.has_header then
      FormattedLine.from_raw raw_line current_block.contents_indent_level
    else
      FormattedLine.from_raw raw_line current_block.contents_indent_level
  | none =>
    FormattedLine.from_raw raw_line current_block.contents_indent_level

/-- The line emitted for fenced (preformatted) content: the trimmed text
re-prefixed with the indentation it had beyond the fence base
(src/parsing.rs lines 62-72; Rust `saturating_sub` is Nat subtraction). -/
def preformattedLine (contentsIndent base : Nat) (raw_line : RawLine) : FormattedLine :=
  { indent_level := contentsIndent
    line_type := LineType.Preformatted
    contents := String.mk (List.replicate (raw_line.num_indent - base) ' ' ++ raw_line.trimmed.data)
    original_raw := raw_line }

/-- The single `FormattedLine` produced for one input line, following the
dispatch of the parse loop (src/parsing.rs lines 20-78). -/
def emittedLine (s : ParseState) (line : String) : FormattedLine :=
  let raw_line := RawLine.from_string line
  if raw_line.is_header then
    FormattedLine.from_raw raw_line (determine_new_header_indent s.document raw_line)
  else if raw_line.is_list_item then
    FormattedLine.from_raw raw_line
      (determine_new_bullet_point_indent s.document.last_block raw_line)
  else if raw_line.contains_marker then
    parse_text_line s.document.last_block raw_line
  else
    match s.context with
    | Context.HandlingFencedFiletype base =>
      preformattedLine s.document.last_block.contents_indent_level base raw_line
    | Context.Normal => parse_text_line s.document.last_block raw_line

/-- The fence mode after consuming one line: a marker line toggles it
(src/parsing.rs lines 40-45), every other line leaves it unchanged. -/
def nextContext (s : ParseState) (line : String) : Context :=
  let raw_line := RawLine.from_string line
  if !raw_line.is_header && !raw_line.is_list_item && raw_line.contains_marker then
    match s.context with
    | Context.Normal => Context.HandlingFencedFiletype raw_line.num_indent
    | Context.HandlingFencedFiletype _ => Context.Normal
  else s.context

/-- One iteration of the parse loop (src/parsing.rs lines 17-79): a header
starts a new block, every other line is appended to the current block. -/
def step (s : ParseState) (line : String) : ParseState :=
  let raw_line := RawLine.from_string line
  let f := emittedLine s line
  { document :=
      if raw_line.is_header then s.document.add_block (Block.new f)
      else s.document.updateLast (fun b => b.add_line f)
    context := nextContext s line }

/-- The initial parser state. -/
def initState : ParseState :=
  { document := Document.new, context := Context.Normal }

/-- The parser state after consuming the lines of `contents`. -/
def parseState (contents : String) : ParseState :=
  (rustLines contents).foldl step initState

/-- Parses the lines of `contents` and decides type and indenting of each
line (src/parsing.rs lines 12-82). -/
def parse_document (contents : String) : Document :=
  (parseState contents).document

/-! ## Checked variants modelling the Rust assertions -/

/-- Header-indent computation guarded by the Rust assertion
`assert!(raw_line.is_header())` (src/parsing.rs line 86): `none` models an
assertion failure aborting the pass. -/
def determine_new_header_indent_checked (document : Document) (raw_line : RawLine) :
    Option Nat :=
  if raw_line.is_header then some (determine_new_header_indent document raw_line)
  else none

/-- Bullet-indent computation guarded by the Rust assertion
`assert!(raw_line.is_list_item())` (src/parsing.rs line 106): `none` models
an assertion failure aborting the pass. -/
def determine_new_bullet_point_indent_checked (current_block : Block) (raw_line : RawLine) :
    Option Nat :=
  if raw_line.is_list_item then some (determine_new_bullet_point_indent current_block raw_line)
  else none

/-- One iteration of the parse loop with the internal assertions live:
`none` models the pass aborting on an assertion failure. -/
def step_checked (s : ParseState) (line : String) : Option ParseState :=
  let raw_line := RawLine.from_string line
  if raw_line.is_header then
    (determine_new_header_indent_checked s.document raw_line).map (fun lvl =>
      { document := s.document.add_block (Block.new (FormattedLine.from_raw raw_line lvl))
        context := nextContext s line })
  else if raw_line.is_list_item then
    (determine_new_bullet_point_indent_checked s.document.last_block raw_line).map (fun lvl =>
      { document := s.document.updateLast
          (fun b => b.add_line (FormattedLine.from_raw raw_line lvl))
        context := nextContext s line })
  else
    some (step s line)

/-- The whole parse with the internal assertions live. -/
def parse_document_checked (contents : String) : Option Document :=
  ((rustLines contents).foldlM step_checked initState).map ParseState.document

/-! ## Rendering (modelled from the spec) -/

/-- The lines of a document in input order: each block contributes its
header (when present) followed by its body lines. -/
def blockLines (b : Block) : List FormattedLine :=
  (match b.header with
   | some h => [h]
   | none => []) ++ b.lines

/-- All lines of a document in input order. -/
def docLines (d : Document) : List FormattedLine :=
  d.blocks.flatMap blockLines

/-- Modelled from the spec: serialize one formatted line as `indent_level`
units of indentation followed by its contents; one indentation unit is two
spaces. -/
def renderLine (f : FormattedLine) : String :=
  String.mk (List.replicate (2 * f.indent_level) ' ' ++ f.contents.data)

/-- Modelled from the spec: serialize a document back to output text. -/
def render (d : Document) : String :=
  joinLines ((docLines d).map renderLine)

/-! ## Specification-side rule definitions (used to state the claims) -/

/-- Number of leading space characters of a string. -/
def leadingSpaces (s : String) : Nat :=
  leadingSpacesList s.data

/-- Header-indent rule exactly as the claim words it: comparing the new
header raw indent `r` to the previous block raw header indent `p`,
`r = p` gives the previous contents level minus one, `r < p` gives the
previous contents level, and `r > p` looks up the most recent block whose
header raw indent equals `r` (default level zero). -/
def headerIndentClaimRule (document : Document) (raw_line : RawLine) : Nat :=
  let p := document.last_block.raw_header_indent
  let r := raw_line.num_indent
  if r = p then document.last_block.contents_indent_level - 1
  else if r < p then document.last_block.contents_indent_level
  else
    ((document.find_latest_block_with_raw_indent r).map
      (fun block => block.contents_indent_level - 1)).getD 0

/-- Header-indent rule as amended: the `r < p` and `r > p` cases of the
claim are swapped, matching the source comparison `p.cmp(&r)`. -/
def headerIndentAmendedRule (document : Document) (raw_line : RawLine) : Nat :=
  let p := document.last_block.raw_header_indent
  let r := raw_line.num_indent
  if r = p then document.last_block.contents_indent_level - 1
  else if r > p then document.last_block.contents_indent_level
  else
    ((document.find_latest_block_with_raw_indent r).map
      (fun block => block.contents_indent_level - 1)).getD 0

/-- The claim rule for a list item shifted left: reuse the level of the
most recent prior body line with the same original raw indent, else the
block contents level. -/
def bulletLeftSpecRule (current_block : Block) (r : Nat) : Nat :=
  match current_block.find_latest_line_with_raw_indent r with
  | some line => line.indent_level
  | none => current_block.contents_indent_level

/-- Line types whose indent level is derived from the list-nesting
computation. -/
def listish (t : LineType) : Bool :=
  t = LineType.ListBulletPoint || t = LineType.ListTodoItem || t = LineType.ListContinuousLine

/-- One line of a reparse matches one line of the original parse when the
types agree and, outside the list-nesting types, the levels agree. -/
def lineIdem (a b : FormattedLine) : Bool :=
  decide (b.line_type = a.line_type) && (listish a.line_type || decide (b.indent_level = a.indent_level))

/-- Pointwise `lineIdem` over two documents, requiring equal length. -/
def pairwiseIdem : List FormattedLine → List FormattedLine → Bool
  | [], [] => true
  | a :: as, b :: bs => lineIdem a b && pairwiseIdem as bs
  | _, _ => false

/-- The formatted lines emitted while consuming `ls` from state `s`, in
order. -/
def traceLines (s : ParseState) : List String → List FormattedLine
  | [] => []
  | l :: ls => emittedLine s l :: traceLines (step s l) ls

/-! ## Reparse correspondence relations -/

/-- Lift a relation to optional values. -/
def ROpt {α : Type} (r : α → α → Prop) : Option α → Option α → Prop
  | none, none => True
  | some a, some b => r a b
  | _, _ => False

/-- Correspondence between a block header and its reparse: same type, same
level, same raw indent. -/
def RHeader (h1 h2 : FormattedLine) : Prop :=
  h2.line_type = h1.line_type ∧ h2.indent_level = h1.indent_level ∧
    h2.original_raw.num_indent = h1.original_raw.num_indent

/-- Correspondence between a body line and its reparse: same type, and same
level outside the list-nesting types. -/
def RBody (l1 l2 : FormattedLine) : Prop :=
  l2.line_type = l1.line_type ∧ (listish l1.line_type = false → l2.indent_level = l1.indent_level)

/-- Correspondence between a block and its reparse. -/
def RBlock (b1 b2 : Block) : Prop :=
  ROpt RHeader b1.header b2.header ∧ List.Forall₂ RBody b1.lines b2.lines

/-- Correspondence between a parser state and its reparse: corresponding
blocks and agreeing fence mode. -/
def RState (s1 s2 : ParseState) : Prop :=
  List.Forall₂ RBlock s1.document.blocks s2.document.blocks ∧
    (s1.context = Context.Normal ↔ s2.context = Context.Normal)

/-! ## Helper lemmas: classification -/

theorem data_hash : ("#" : String).data = ['#'] := rfl

theorem data_dash : ("- " : String).data = ['-', ' '] := rfl

theorem data_todo1 : ("[ ]" : String).data = ['[', ' ', ']'] := rfl

theorem data_todo2 : ("[x]" : String).data = ['[', 'x', ']'] := rfl

/-- A list item never classifies as a header: its trimmed text starts with
a dash or bracket, not a hash mark. -/
theorem list_not_header (r : RawLine) (h : r.is_list_item = true) : r.is_header = false := by
  unfold RawLine.is_list_item RawLine.is_bullet RawLine.is_todo at h
  unfold RawLine.is_header
  unfold strStarts at h ⊢
  rw [data_hash]
  rw [data_dash, data_todo1, data_todo2] at h
  cases hl : r.trimmed.data with
  | nil => rw [hl] at h; simp [List.isPrefixOf] at h
  | cons c cs =>
    rw [hl] at h
    simp only [List.isPrefixOf, Bool.or_eq_true, Bool.and_eq_true, beq_iff_eq] at h
    simp only [List.isPrefixOf, Bool.and_eq_true, beq_iff_eq, Bool.and_true]
    rcases h with ⟨hc, _⟩ | ⟨hc, _⟩ | ⟨hc, _⟩ <;> subst hc <;> decide

/-! ## Helper lemmas: trimming -/

/-- The head of a `dropWhile` result does not satisfy the predicate. -/
theorem head_dropWhile_false {p : Char → Bool} :
    ∀ (l : List Char) (c : Char) (cs : List Char), l.dropWhile p = c :: cs → p c = false := by
  intro l
  induction l with
  | nil => intro c cs h; simp [List.dropWhile] at h
  | cons a as ih =>
    intro c cs h
    rw [List.dropWhile_cons] at h
    by_cases hp : p a
    · rw [if_pos hp] at h; exact ih c cs h
    · rw [if_neg hp] at h
      cases h
      exact Bool.of_not_eq_true hp

/-- The trimmed text is a prefix of the whitespace-stripped front of the
line. -/
theorem trimList_prefix_dropWhile (l : List Char) :
    trimList l <+: l.dropWhile isWs := by
  unfold trimList
  obtain ⟨t, ht⟩ := List.dropWhile_suffix (l := (l.dropWhile isWs).reverse) isWs
  refine ⟨t.reverse, ?_⟩
  have := congrArg List.reverse ht
  simpa using this

/-- The trimmed text never starts with whitespace. -/
theorem trimList_head_not_ws (l : List Char) (c : Char) (cs : List Char)
    (h : trimList l = c :: cs) : isWs c = false := by
  obtain ⟨t, ht⟩ := trimList_prefix_dropWhile l
  rw [h] at ht
  exact head_dropWhile_false l c (cs ++ t) ht.symm

/-- The trimmed text never ends with whitespace. -/
theorem trimList_getLast_not_ws (l : List Char) (c : Char)
    (h : (trimList l).getLast? = some c) : isWs c = false := by
  unfold trimList at h
  rw [List.getLast?_eq_head?_reverse, List.reverse_reverse] at h
  cases hd : ((l.dropWhile isWs).reverse.dropWhile isWs) with
  | nil => rw [hd] at h; simp at h
  | cons a as =>
    rw [hd] at h
    simp at h
    rw [← h]
    exact head_dropWhile_false _ a as hd

/-- Dropping leading whitespace ignores leading spaces. -/
theorem dropWhile_isWs_replicate_append (n : Nat) (t : List Char) :
    (List.replicate n ' ' ++ t).dropWhile isWs = t.dropWhile isWs := by
  induction n with
  | zero => simp
  | succ m ih => rw [List.replicate_succ]; simpa [List.dropWhile_cons] using ih

/-- Trimming ignores leading spaces. -/
theorem trimList_replicate_append (n : Nat) (t : List Char) :
    trimList (List.replicate n ' ' ++ t) = trimList t := by
  unfold trimList
  rw [dropWhile_isWs_replicate_append]

/-- A list with no whitespace at either end trims to itself. -/
theorem trimList_eq_self (x : List Char)
    (h1 : ∀ c cs, x = c :: cs → isWs c = false)
    (h2 : ∀ c, x.getLast? = some c → isWs c = false) : trimList x = x := by
  have hfront : x.dropWhile isWs = x := by
    cases hx : x with
    | nil => simp
    | cons c cs => rw [List.dropWhile_cons, if_neg (by simp [h1 c cs hx])]
  unfold trimList
  rw [hfront]
  have hback : x.reverse.dropWhile isWs = x.reverse := by
    cases hx : x.reverse with
    | nil => simp
    | cons c cs =>
      have hc : x.getLast? = some c := by
        rw [List.getLast?_eq_head?_reverse, hx]; rfl
      rw [List.dropWhile_cons, if_neg (by simp [h2 c hc])]
  rw [hback, List.reverse_reverse]

/-- Trimming is idempotent. -/
theorem trimList_trimList (l : List Char) : trimList (trimList l) = trimList l :=
  trimList_eq_self (trimList l) (trimList_head_not_ws l) (trimList_getLast_not_ws l)

/-- Leading-space counting passes over a leading spaces block. -/
theorem leadingSpacesList_replicate_append (n : Nat) (t : List Char) :
    leadingSpacesList (List.replicate n ' ' ++ t) = n + leadingSpacesList t := by
  induction n with
  | zero => simp
  | succ m ih =>
    rw [List.replicate_succ]
    simp [List.cons_append, leadingSpacesList, ih]
    omega

/-- A trimmed text has no leading spaces. -/
theorem leadingSpacesList_trimList (l : List Char) : leadingSpacesList (trimList l) = 0 := by
  cases h : trimList l with
  | nil => rfl
  | cons c cs =>
    have hc := trimList_head_not_ws l c cs h
    have : ¬ c = ' ' := by
      intro hcs; rw [hcs] at hc; simp [isWs] at hc
    simp [leadingSpacesList, this]

/-! ## Claim C1: header indent resolution -/

/-- Claim C1 (amended): for every header line, `determine_new_header_indent`
computes the level from the new raw indent `r` and the previous block raw
header indent `p` by: `r = p` gives the previous contents level minus one;
`r > p` gives the previous contents level (child); `r < p` reuses the most
recent block whose header raw indent equals `r` (contents level minus one),
defaulting to `0`.  The claim as stated has the `r < p` and `r > p` cases
swapped. -/
theorem c1_header_indent_refines_amended_rule (d : Document) (raw_line : RawLine)
    (h : raw_line.is_header = true) :
    determine_new_header_indent d raw_line = headerIndentAmendedRule d raw_line := by
  unfold determine_new_header_indent headerIndentAmendedRule
  dsimp only
  cases hc : compare d.last_block.raw_header_indent raw_line.num_indent with
  | eq =>
    have hpr := Nat.compare_eq_eq.mp hc
    rw [if_pos (by omega)]
  | lt =>
    have hpr := Nat.compare_eq_lt.mp hc
    rw [if_neg (by omega), if_pos (by omega)]
  | gt =>
    have hpr := Nat.compare_eq_gt.mp hc
    rw [if_neg (by omega), if_neg (by omega)]

/-- Witness for claim C1 at a concrete header line. -/
theorem c1_witness :
    (RawLine.from_string "## B").is_header = true ∧
    determine_new_header_indent (parse_document "# A") (RawLine.from_string "## B") =
      headerIndentAmendedRule (parse_document "# A") (RawLine.from_string "## B") :=
  ⟨by decide, c1_header_indent_refines_amended_rule _ _ (by decide)⟩

/-- Counterexample to claim C1 as stated: after parsing the single header
line with raw indent 2, the header line with raw indent 1 satisfies
`r < p`; the code resolves it through the ancestor lookup to level 0, while
the claim rule for `r < p` (child) yields level 1. -/
theorem c1_counterexample :
    (RawLine.from_string "# B").is_header = true ∧
    (RawLine.from_string "# B").num_indent <
      (parse_document "## A").last_block.raw_header_indent ∧
    determine_new_header_indent (parse_document "## A") (RawLine.from_string "# B") = 0 ∧
    headerIndentClaimRule (parse_document "## A") (RawLine.from_string "# B") = 1 ∧
    (docLines (parse_document "## A\n# B")).map (fun f => f.indent_level) = [0, 0] := by
  refine ⟨by decide, by decide, by decide, by decide, by decide⟩

/-! ## Claim C9: the internal assertions never fire -/

theorem step_checked_eq_some (s : ParseState) (l : String) :
    step_checked s l = some (step s l) := by
  by_cases h1 : (RawLine.from_string l).is_header
  · simp [step_checked, step, emittedLine, determine_new_header_indent_checked, h1]
  · by_cases h2 : (RawLine.from_string l).is_list_item
    · simp [step_checked, step, emittedLine, determine_new_bullet_point_indent_checked, h1, h2]
    · simp [step_checked, h1, h2]

theorem foldlM_step_checked (ls : List String) :
    ∀ s : ParseState, List.foldlM step_checked s ls = some (List.foldl step s ls) := by
  induction ls with
  | nil => intro s; rfl
  | cons l ls ih =>
    intro s
    rw [List.foldlM_cons, step_checked_eq_some]
    simpa [List.foldl] using ih (step s l)

/-- Claim C9: for every input text the two internal invariant assertions
never fire: the header-indent computation is reached only on lines
classified as headers and the list-indent computation only on lines
classified as list items, so the checked parse never aborts and agrees
with the total parse. -/
theorem c9_assertions_never_fire (contents : String) :
    parse_document_checked contents = some (parse_document contents) := by
  unfold parse_document_checked parse_document parseState
  rw [foldlM_step_checked]
  rfl

/-! ## Claims C3 and C6: list-item indent resolution -/

/-- Claim C3 (amended): when a list item's raw indent strictly exceeds the
raw indent of the previous list item selected by the algorithm (the most
recent prior bullet line or, failing that, the most recent prior todo
line), the new item's level is that item's level plus one, regardless of
how many raw columns were added.  The claim as stated, which compares
against the immediately preceding list item of either kind, fails. -/
theorem c3_list_indent_single_step_amended (s : ParseState) (line : String)
    (prev : FormattedLine)
    (hlist : (RawLine.from_string line).is_list_item = true)
    (hprev : previousListItem s.document.last_block = some prev)
    (hlt : prev.original_raw.num_indent < (RawLine.from_string line).num_indent) :
    (emittedLine s line).indent_level = prev.indent_level + 1 := by
  have hh := list_not_header _ hlist
  simp only [emittedLine, hh, hlist, Bool.false_eq_true, if_false, if_true,
    FormattedLine.from_raw]
  unfold determine_new_bullet_point_indent
  rw [hprev]
  dsimp only
  rw [Nat.compare_eq_lt.mpr hlt]

/-- Witness for claim C3 at a concrete pair of bullet lines. -/
theorem c3_witness :
    (RawLine.from_string "  - b").is_list_item = true ∧
    previousListItem (parseState "- a").document.last_block =
      some ⟨0, LineType.ListBulletPoint, "- a", ⟨0, "- a"⟩⟩ ∧
    (emittedLine (parseState "- a") "  - b").indent_level = 0 + 1 :=
  ⟨by decide, by decide,
    c3_list_indent_single_step_amended (parseState "- a") "  - b"
      ⟨0, LineType.ListBulletPoint, "- a", ⟨0, "- a"⟩⟩ (by decide) (by decide) (by decide)⟩

/-- Counterexample to claim C3 as stated: in the block built from the lines
with raw indents 4 (bullet), 0 (todo), 2 (bullet), the todo item (level 0,
raw indent 0) is immediately followed by a bullet with the larger raw
indent 2, yet that bullet resolves to level 0, not 0 + 1: the algorithm
compares against the most recent bullet (raw indent 4), not the
immediately preceding todo item. -/
theorem c3_counterexample :
    (docLines (parse_document "    - a\n[ ] t\n  - b")).map
      (fun f => (f.line_type, f.indent_level, f.original_raw.num_indent)) =
      [(LineType.ListBulletPoint, 0, 4), (LineType.ListTodoItem, 0, 0),
        (LineType.ListBulletPoint, 0, 2)] ∧ (0 : Nat) ≠ 0 + 1 :=
  ⟨by decide, by decide⟩

/-- Claim C6: when a list item's raw indent is strictly below the raw
indent of the previous list item selected by the algorithm, its level is
that of the most recent prior body line with exactly that original raw
indent, defaulting to the block's contents indent level. -/
theorem c6_list_shift_left_reuses_raw_indent_level (s : ParseState) (line : String)
    (prev : FormattedLine)
    (hlist : (RawLine.from_string line).is_list_item = true)
    (hprev : previousListItem s.document.last_block = some prev)
    (hgt : (RawLine.from_string line).num_indent < prev.original_raw.num_indent) :
    (emittedLine s line).indent_level =
      bulletLeftSpecRule s.document.last_block (RawLine.from_string line).num_indent := by
  have hh := list_not_header _ hlist
  simp only [emittedLine, hh, hlist, Bool.false_eq_true, if_false, if_true,
    FormattedLine.from_raw]
  unfold determine_new_bullet_point_indent bulletLeftSpecRule
  rw [hprev]
  dsimp only
  rw [Nat.compare_eq_gt.mpr hgt]
  cases hf : s.document.last_block.find_latest_line_with_raw_indent
      (RawLine.from_string line).num_indent with
  | none => simp
  | some found => simp

/-- Witness for claim C6 at a concrete shift-left bullet line. -/
theorem c6_witness :
    (RawLine.from_string "- c").is_list_item = true ∧
    previousListItem (parseState "- a\n  - b").document.last_block =
      some ⟨1, LineType.ListBulletPoint, "- b", ⟨2, "- b"⟩⟩ ∧
    (RawLine.from_string "- c").num_indent < 2 ∧
    (emittedLine (parseState "- a\n  - b") "- c").indent_level =
      bulletLeftSpecRule (parseState "- a\n  - b").document.last_block
        (RawLine.from_string "- c").num_indent :=
  ⟨by decide, by decide, by decide,
    c6_list_shift_left_reuses_raw_indent_level (parseState "- a\n  - b") "- c"
      ⟨1, LineType.ListBulletPoint, "- b", ⟨2, "- b"⟩⟩ (by decide) (by decide) (by decide)⟩

/-! ## Claim C2: lines inside a fence -/

/-- Claim C2 (amended): every line consumed in the fenced state that is not
classified as a header, list item or fence marker is emitted as
`Preformatted` at the current block's contents indent level, with contents
equal to `num_indent - base_indent` spaces (saturating) followed by the
trimmed text.  The claim as stated, which covers every line between the
fence markers, fails on lines classified as headers or list items. -/
theorem c2_fenced_plain_line_preformatted (s : ParseState) (line : String) (base : Nat)
    (hctx : s.context = Context.HandlingFencedFiletype base)
    (hh : (RawLine.from_string line).is_header = false)
    (hl : (RawLine.from_string line).is_list_item = false)
    (hm : (RawLine.from_string line).contains_marker = false) :
    (emittedLine s line).line_type = LineType.Preformatted ∧
    (emittedLine s line).indent_level = s.document.last_block.contents_indent_level ∧
    (emittedLine s line).contents =
      String.mk (List.replicate ((RawLine.from_string line).num_indent - base) ' ' ++
        (RawLine.from_string line).trimmed.data) := by
  simp [emittedLine, hh, hl, hm, hctx, preformattedLine]

/-- Witness for claim C2 at a concrete fenced line. -/
theorem c2_witness :
    (parseState "```").context = Context.HandlingFencedFiletype 0 ∧
    ((emittedLine (parseState "```") "   x").line_type = LineType.Preformatted ∧
      (emittedLine (parseState "```") "   x").indent_level =
        (parseState "```").document.last_block.contents_indent_level ∧
      (emittedLine (parseState "```") "   x").contents =
        String.mk (List.replicate ((RawLine.from_string "   x").num_indent - 0) ' ' ++
          (RawLine.from_string "   x").trimmed.data)) :=
  ⟨by decide, c2_fenced_plain_line_preformatted (parseState "```") "   x" 0
    (by decide) (by decide) (by decide) (by decide)⟩

/-- Counterexample to claim C2 as stated: the header-looking line between
the two fence markers is consumed in the fenced state but emitted as a
`Header` starting a new block, not as `Preformatted`. -/
theorem c2_counterexample :
    (parseState "```").context = Context.HandlingFencedFiletype 0 ∧
    (emittedLine (parseState "```") "# X").line_type = LineType.Header ∧
    LineType.Header ≠ LineType.Preformatted ∧
    (docLines (parse_document "```\n# X\n```")).map (fun f => f.line_type) =
      [LineType.Text, LineType.Header, LineType.Text] :=
  ⟨by decide, by decide, by decide, by decide⟩

/-! ## Claim C7: continuation lines -/

/-- Claim C7 (amended): outside the fenced state, a non-empty line that is
not a header, list item or fence marker, whose immediately preceding line
in the current block is a list item, is emitted as `ListContinuousLine` at
that item's indent level, with the continuation prefix followed by the
trimmed text.  The claim as stated, with no fence-state condition, fails
on fenced lines. -/
theorem c7_continuation_after_list_item (s : ParseState) (line : String)
    (prev : FormattedLine)
    (hctx : s.context = Context.Normal)
    (hh : (RawLine.from_string line).is_header = false)
    (hl : (RawLine.from_string line).is_list_item = false)
    (hm : (RawLine.from_string line).contains_marker = false)
    (hne : (RawLine.from_string line).is_empty = false)
    (hlast : s.document.last_block.last_line = some prev)
    (hprev : prev.is_list_item = true) :
    (emittedLine s line).line_type = LineType.ListContinuousLine ∧
    (emittedLine s line).indent_level = prev.indent_level ∧
    (emittedLine s line).contents =
      String.mk (contPrefix.data ++ (RawLine.from_string line).trimmed.data) := by
  simp [emittedLine, hh, hl, hm, hctx, parse_text_line, hlast, hprev, hne]

/-- Witness for claim C7 at a concrete continuation line. -/
theorem c7_witness :
    (parseState "- a").context = Context.Normal ∧
    (parseState "- a").document.last_block.last_line =
      some ⟨0, LineType.ListBulletPoint, "- a", ⟨0, "- a"⟩⟩ ∧
    ((emittedLine (parseState "- a") "x").line_type = LineType.ListContinuousLine ∧
      (emittedLine (parseState "- a") "x").indent_level = 0 ∧
      (emittedLine (parseState "- a") "x").contents =
        String.mk (contPrefix.data ++ (RawLine.from_string "x").trimmed.data)) :=
  ⟨by decide, by decide,
    c7_continuation_after_list_item (parseState "- a") "x"
      ⟨0, LineType.ListBulletPoint, "- a", ⟨0, "- a"⟩⟩
      (by decide) (by decide) (by decide) (by decide) (by decide) (by decide) (by decide)⟩

/-- Counterexample to claim C7 as stated: the non-empty plain line follows
a bullet item inside an open fence and is emitted as `Preformatted`, not
as `ListContinuousLine`. -/
theorem c7_counterexample :
    (parseState "```\n- b").context = Context.HandlingFencedFiletype 0 ∧
    ((parseState "```\n- b").document.last_block.last_line).map
      FormattedLine.is_list_item = some true ∧
    (RawLine.from_string "x").is_empty = false ∧
    (RawLine.from_string "x").is_header = false ∧
    (RawLine.from_string "x").is_list_item = false ∧
    (RawLine.from_string "x").contains_marker = false ∧
    (emittedLine (parseState "```\n- b") "x").line_type = LineType.Preformatted ∧
    LineType.Preformatted ≠ LineType.ListContinuousLine :=
  ⟨by decide, by decide, by decide, by decide, by decide, by decide, by decide, by decide⟩

/-! ## Claim C5: Scenario B -/

/-- Claim C5: parsing the three header lines of Scenario B yields header A
at level 0, header B at level 1 and header C at level 0. -/
theorem c5_scenario_b :
    (docLines (parse_document "# A\n## B\n# C")).map
      (fun f => (f.line_type, f.indent_level)) =
      [(LineType.Header, 0), (LineType.Header, 1), (LineType.Header, 0)] := by
  decide

/-! ## Claim C4: fence relative-indent preservation -/

theorem leadingSpaces_render_preformatted (ci base : Nat) (l : String) :
    leadingSpaces (renderLine (preformattedLine ci base (RawLine.from_string l))) =
      2 * ci + ((RawLine.from_string l).num_indent - base) := by
  have hdata : (RawLine.from_string l).trimmed.data = trimList l.data := by
    simp [RawLine.from_string]
  unfold leadingSpaces renderLine preformattedLine
  simp only [hdata]
  rw [leadingSpacesList_replicate_append, leadingSpacesList_replicate_append,
    leadingSpacesList_trimList]
  omega

/-- Claim C4 (amended): for two lines rendered as `Preformatted` inside the
same fenced range that belong to the same block, so that they share the
block contents indent level `ci` (and the fence base `base`), and whose raw
indents are both at least the fence base indent, the difference of the
rendered leading-space counts equals the difference of the original raw
indents.  The claim as stated fails in two ways: without the lower bound on
the raw indents the relative indent saturates at zero, and without the
same-block condition a header inside the fence starts a new block whose
`Preformatted` lines render at a different block level. -/
theorem c4_fence_relative_indent_amended (ci base : Nat) (l1 l2 : String)
    (h1 : base ≤ (RawLine.from_string l1).num_indent)
    (h2 : base ≤ (RawLine.from_string l2).num_indent) :
    (leadingSpaces (renderLine (preformattedLine ci base (RawLine.from_string l1))) : Int) -
      (leadingSpaces (renderLine (preformattedLine ci base (RawLine.from_string l2))) : Int) =
    ((RawLine.from_string l1).num_indent : Int) -
      ((RawLine.from_string l2).num_indent : Int) := by
  rw [leadingSpaces_render_preformatted, leadingSpaces_render_preformatted]
  omega

/-- Witness for claim C4 at two concrete fenced lines. -/
theorem c4_witness :
    2 ≤ (RawLine.from_string "    a").num_indent ∧
    2 ≤ (RawLine.from_string "      b").num_indent ∧
    (leadingSpaces (renderLine (preformattedLine 0 2 (RawLine.from_string "    a"))) : Int) -
      (leadingSpaces (renderLine (preformattedLine 0 2 (RawLine.from_string "      b"))) : Int) =
    ((RawLine.from_string "    a").num_indent : Int) -
      ((RawLine.from_string "      b").num_indent : Int) :=
  ⟨by decide, by decide,
    c4_fence_relative_indent_amended 0 2 "    a" "      b" (by decide) (by decide)⟩

/-- Counterexample to claim C4 as stated, in both respects.  Saturation:
inside the fence opened at raw indent 2, the lines with raw indents 0 and 4
render with 0 and 2 leading spaces (rendered difference 2, raw difference
4).  Cross-block: inside the fence opened at raw indent 0, the two
`Preformatted` lines around the header both have raw indent 0, yet render
with 0 and 2 leading spaces, because the header starts a new block at a
deeper contents level (rendered difference 2, raw difference 0). -/
theorem c4_counterexample :
    ((docLines (parse_document "  ```\nx\n    y\n  ```")).map
      (fun f => (f.line_type, leadingSpaces (renderLine f), f.original_raw.num_indent)) =
      [(LineType.Text, 0, 2), (LineType.Preformatted, 0, 0),
        (LineType.Preformatted, 2, 4), (LineType.Text, 0, 2)] ∧
    ((2 : Int) - 0 ≠ (4 : Int) - 0)) ∧
    ((docLines (parse_document "```\nx\n# H\ny\n```")).map
      (fun f => (f.line_type, f.indent_level, leadingSpaces (renderLine f),
        f.original_raw.num_indent)) =
      [(LineType.Text, 0, 0, 0), (LineType.Preformatted, 0, 0, 0),
        (LineType.Header, 0, 0, 1), (LineType.Preformatted, 1, 2, 0),
        (LineType.Text, 1, 2, 0)] ∧
    ((2 : Int) - 0 ≠ (0 : Int) - 0)) :=
  ⟨⟨by decide, by decide⟩, by decide, by decide⟩

/-! ## Trace lemmas: one emitted line per input line -/

theorem parse_text_line_original (b : Block) (raw : RawLine) :
    (parse_text_line b raw).original_raw = raw := by
  unfold parse_text_line
  cases hls : b.last_line with
  | none => simp [FormattedLine.from_raw]
  | some prev =>
    dsimp only
    split_ifs <;> simp [FormattedLine.from_raw]

theorem emittedLine_original (s : ParseState) (l : String) :
    (emittedLine s l).original_raw = RawLine.from_string l := by
  unfold emittedLine
  dsimp only
  split_ifs with h1 h2 h3
  · rfl
  · rfl
  · exact parse_text_line_original _ _
  · cases hc : s.context with
    | Normal => exact parse_text_line_original _ _
    | HandlingFencedFiletype base => rfl

theorem blockLines_new (f : FormattedLine) : blockLines (Block.new f) = [f] := rfl

theorem blockLines_add_line (b : Block) (f : FormattedLine) :
    blockLines (b.add_line f) = blockLines b ++ [f] := by
  unfold blockLines Block.add_line
  cases b.header <;> simp

theorem step_blocks_ne (s : ParseState) (l : String) :
    (step s l).document.blocks ≠ [] := by
  unfold step Document.add_block Document.updateLast
  dsimp only
  split_ifs <;> simp

theorem docLines_step (s : ParseState) (l : String) (h : s.document.blocks ≠ []) :
    docLines (step s l).document = docLines s.document ++ [emittedLine s l] := by
  unfold step
  dsimp only
  split_ifs with hh
  · unfold docLines Document.add_block
    rw [List.flatMap_append]
    rfl
  · rcases List.eq_nil_or_concat s.document.blocks with hnil | ⟨L, b, hcat⟩
    · exact absurd hnil h
    · unfold docLines Document.updateLast Document.last_block
      rw [hcat]
      simp only [List.concat_eq_append, List.dropLast_concat,
        List.getLastD_eq_getLast?, List.getLast?_concat, Option.getD_some]
      rw [List.flatMap_append, List.flatMap_append]
      simp [blockLines_add_line]

theorem docLines_foldl (ls : List String) :
    ∀ s : ParseState, s.document.blocks ≠ [] →
      docLines (List.foldl step s ls).document = docLines s.document ++ traceLines s ls := by
  induction ls with
  | nil => intro s h; simp [traceLines]
  | cons l ls ih =>
    intro s h
    rw [List.foldl_cons, ih (step s l) (step_blocks_ne s l), docLines_step s l h]
    simp [traceLines]

theorem traceLines_original (ls : List String) :
    ∀ s : ParseState, (traceLines s ls).map (fun f => f.original_raw) =
      ls.map RawLine.from_string := by
  induction ls with
  | nil => intro s; rfl
  | cons l ls ih =>
    intro s
    simp [traceLines, emittedLine_original, ih (step s l)]

theorem step_blocks_length (s : ParseState) (l : String) (h : s.document.blocks ≠ []) :
    (step s l).document.blocks.length =
      s.document.blocks.length +
        (if (RawLine.from_string l).is_header then 1 else 0) := by
  unfold step Document.add_block Document.updateLast
  dsimp only
  split_ifs with hh
  · simp
  · rcases List.eq_nil_or_concat s.document.blocks with hnil | ⟨L, b, hcat⟩
    · exact absurd hnil h
    · rw [hcat]; simp

theorem foldl_blocks_length (ls : List String) :
    ∀ s : ParseState, s.document.blocks ≠ [] →
      (List.foldl step s ls).document.blocks.length =
        s.document.blocks.length +
          ls.countP (fun l => (RawLine.from_string l).is_header) := by
  induction ls with
  | nil => intro s h; simp
  | cons l ls ih =>
    intro s h
    rw [List.foldl_cons, ih (step s l) (step_blocks_ne s l),
      step_blocks_length s l h, List.countP_cons]
    omega

/-- Claim C10: the parse emits exactly one formatted line per input line,
in input order (their original raw lines are exactly the classified input
lines), and the number of blocks is one (the implicit leading block) plus
the number of header lines. -/
theorem c10_one_line_per_input_line (contents : String) :
    (docLines (parse_document contents)).map (fun f => f.original_raw) =
      (rustLines contents).map RawLine.from_string ∧
    (parse_document contents).blocks.length =
      1 + (rustLines contents).countP (fun l => (RawLine.from_string l).is_header) := by
  constructor
  · unfold parse_document parseState
    rw [docLines_foldl _ initState (by simp [initState, Document.new])]
    have hinit : docLines initState.document = [] := rfl
    rw [hinit, List.nil_append]
    exact traceLines_original _ initState
  · unfold parse_document parseState
    rw [foldl_blocks_length _ initState (by simp [initState, Document.new])]
    rfl

/-! ## Reparse correspondence: relation utilities -/

theorem ROpt_none {α : Type} (r : α → α → Prop) : ROpt r none none := trivial

theorem ROpt_some {α : Type} {r : α → α → Prop} {a b : α} (h : r a b) :
    ROpt r (some a) (some b) := h

theorem forall2_append_single {α : Type} {R : α → α → Prop} {l1 l2 : List α} {a b : α}
    (h : List.Forall₂ R l1 l2) (hab : R a b) :
    List.Forall₂ R (l1 ++ [a]) (l2 ++ [b]) := by
  induction h with
  | nil => exact List.Forall₂.cons hab List.Forall₂.nil
  | cons hxy htail ih => exact List.Forall₂.cons hxy ih

theorem forall2_dropLast {α : Type} {R : α → α → Prop} {l1 l2 : List α}
    (h : List.Forall₂ R l1 l2) : List.Forall₂ R l1.dropLast l2.dropLast := by
  induction h with
  | nil => exact List.Forall₂.nil
  | cons hxy htail ih =>
    cases htail with
    | nil => simp
    | cons hcd htail2 =>
      simp only [List.dropLast_cons₂]
      exact List.Forall₂.cons hxy ih

theorem forall2_head? {α : Type} {R : α → α → Prop} {l1 l2 : List α}
    (h : List.Forall₂ R l1 l2) : ROpt R l1.head? l2.head? := by
  cases h with
  | nil => exact ROpt_none R
  | cons hxy htail => exact hxy

theorem forall2_getLast? {α : Type} {R : α → α → Prop} {l1 l2 : List α}
    (h : List.Forall₂ R l1 l2) : ROpt R l1.getLast? l2.getLast? := by
  rw [List.getLast?_eq_head?_reverse, List.getLast?_eq_head?_reverse]
  exact forall2_head? (List.forall₂_reverse_iff.mpr h)

theorem forall2_find? {α : Type} {R : α → α → Prop} {p q : α → Bool} {l1 l2 : List α}
    (h : List.Forall₂ R l1 l2) (hpq : ∀ a b, R a b → p a = q b) :
    ROpt R (l1.find? p) (l2.find? q) := by
  induction h with
  | nil => exact ROpt_none R
  | cons hxy htail ih =>
    rw [List.find?_cons, List.find?_cons, ← hpq _ _ hxy]
    cases hp : p _ with
    | true => exact hxy
    | false => exact ih

/-! ## Reparse correspondence: block-level transfer -/

theorem RBlock_empty : RBlock Block.empty Block.empty :=
  ⟨trivial, List.Forall₂.nil⟩

theorem RBlock_contents_eq {b1 b2 : Block} (h : RBlock b1 b2) :
    b2.contents_indent_level = b1.contents_indent_level := by
  obtain ⟨hh, _⟩ := h
  unfold Block.contents_indent_level
  cases hb1 : b1.header with
  | none =>
    cases hb2 : b2.header with
    | none => rfl
    | some y => rw [hb1, hb2] at hh; exact absurd hh (by simp [ROpt])
  | some x =>
    cases hb2 : b2.header with
    | none => rw [hb1, hb2] at hh; exact absurd hh (by simp [ROpt])
    | some y =>
      rw [hb1, hb2] at hh
      obtain ⟨_, hlvl, _⟩ := hh
      simp [hlvl]

theorem RBlock_rawHeader_eq {b1 b2 : Block} (h : RBlock b1 b2) :
    b2.raw_header_indent = b1.raw_header_indent := by
  obtain ⟨hh, _⟩ := h
  unfold Block.raw_header_indent
  cases hb1 : b1.header with
  | none =>
    cases hb2 : b2.header with
    | none => rfl
    | some y => rw [hb1, hb2] at hh; exact absurd hh (by simp [ROpt])
  | some x =>
    cases hb2 : b2.header with
    | none => rw [hb1, hb2] at hh; exact absurd hh (by simp [ROpt])
    | some y =>
      rw [hb1, hb2] at hh
      obtain ⟨_, _, hnum⟩ := hh
      simp [hnum]

theorem forall2_last_block {d1 d2 : Document}
    (h : List.Forall₂ RBlock d1.blocks d2.blocks) :
    RBlock d1.last_block d2.last_block := by
  unfold Document.last_block
  rw [List.getLastD_eq_getLast?, List.getLastD_eq_getLast?]
  have := forall2_getLast? h
  cases h1 : d1.blocks.getLast? with
  | none =>
    cases h2 : d2.blocks.getLast? with
    | none => exact RBlock_empty
    | some y => rw [h1, h2] at this; exact absurd this (by simp [ROpt])
  | some x =>
    cases h2 : d2.blocks.getLast? with
    | none => rw [h1, h2] at this; exact absurd this (by simp [ROpt])
    | some y => rw [h1, h2] at this; exact this

theorem forall2_find_latest_block {d1 d2 : Document} (n : Nat)
    (h : List.Forall₂ RBlock d1.blocks d2.blocks) :
    ROpt RBlock (d1.find_latest_block_with_raw_indent n)
      (d2.find_latest_block_with_raw_indent n) := by
  unfold Document.find_latest_block_with_raw_indent
  refine forall2_find? (List.forall₂_reverse_iff.mpr h) ?_
  intro a b hab
  obtain ⟨hh, _⟩ := hab
  cases ha : a.header with
  | none =>
    cases hb : b.header with
    | none => rfl
    | some y => rw [ha, hb] at hh; exact absurd hh (by simp [ROpt])
  | some x =>
    cases hb : b.header with
    | none => rw [ha, hb] at hh; exact absurd hh (by simp [ROpt])
    | some y =>
      rw [ha, hb] at hh
      obtain ⟨_, _, hnum⟩ := hh
      simp [Option.any, hnum]

theorem determine_header_eq {d1 d2 : Document} {r1 r2 : RawLine}
    (hb : List.Forall₂ RBlock d1.blocks d2.blocks)
    (hn : r2.num_indent = r1.num_indent) :
    determine_new_header_indent d2 r2 = determine_new_header_indent d1 r1 := by
  have hlast := forall2_last_block hb
  unfold determine_new_header_indent
  dsimp only
  rw [hn, RBlock_rawHeader_eq hlast]
  cases hc : compare d1.last_block.raw_header_indent r1.num_indent with
  | eq => rw [RBlock_contents_eq hlast]
  | lt => rw [RBlock_contents_eq hlast]
  | gt =>
    have hfind := forall2_find_latest_block r1.num_indent hb
    cases h1 : d1.find_latest_block_with_raw_indent r1.num_indent with
    | none =>
      cases h2 : d2.find_latest_block_with_raw_indent r1.num_indent with
      | none => rfl
      | some y => rw [h1, h2] at hfind; exact absurd hfind (by simp [ROpt])
    | some x =>
      cases h2 : d2.find_latest_block_with_raw_indent r1.num_indent with
      | none => rw [h1, h2] at hfind; exact absurd hfind (by simp [ROpt])
      | some y =>
        rw [h1, h2] at hfind
        simp [RBlock_contents_eq hfind]

/-! ## Reparse correspondence: rendered lines re-trim to the same text -/

theorem from_string_trimmed (l : String) :
    (RawLine.from_string l).trimmed = String.mk (trimList l.data) := rfl

theorem from_string_trimmed_data (l : String) :
    (RawLine.from_string l).trimmed.data = trimList l.data := rfl

theorem contPrefix_data : contPrefix.data = List.replicate 2 ' ' := rfl

theorem parse_text_line_shape (b : Block) (raw : RawLine) :
    ∃ n, (parse_text_line b raw).contents.data = List.replicate n ' ' ++ raw.trimmed.data := by
  unfold parse_text_line
  cases hls : b.last_line with
  | none => exact ⟨0, by simp [FormattedLine.from_raw]⟩
  | some prev =>
    dsimp only
    split_ifs
    · exact ⟨2, by rw [← contPrefix_data]⟩
    · exact ⟨0, by simp [FormattedLine.from_raw]⟩
    · exact ⟨0, by simp [FormattedLine.from_raw]⟩

theorem emitted_shape (s : ParseState) (l : String) :
    ∃ n, (emittedLine s l).contents.data = List.replicate n ' ' ++ trimList l.data := by
  unfold emittedLine
  dsimp only
  split_ifs with h1 h2 h3
  · exact ⟨0, by simp [FormattedLine.from_raw, from_string_trimmed_data]⟩
  · exact ⟨0, by simp [FormattedLine.from_raw, from_string_trimmed_data]⟩
  · rw [← from_string_trimmed_data]
    exact parse_text_line_shape _ _
  · cases hc : s.context with
    | Normal =>
      rw [← from_string_trimmed_data]
      exact parse_text_line_shape _ _
    | HandlingFencedFiletype base =>
      exact ⟨(RawLine.from_string l).num_indent - base, by
        simp [preformattedLine, from_string_trimmed_data]⟩

theorem renderLine_data (f : FormattedLine) :
    (renderLine f).data = List.replicate (2 * f.indent_level) ' ' ++ f.contents.data := rfl

theorem trimList_renderLine_emitted (s : ParseState) (l : String) :
    trimList (renderLine (emittedLine s l)).data = trimList l.data := by
  obtain ⟨n, hn⟩ := emitted_shape s l
  rw [renderLine_data, hn, trimList_replicate_append, trimList_replicate_append,
    trimList_trimList]

theorem render_trimmed_eq (s : ParseState) (l : String) :
    (RawLine.from_string (renderLine (emittedLine s l))).trimmed =
      (RawLine.from_string l).trimmed := by
  rw [from_string_trimmed, from_string_trimmed, trimList_renderLine_emitted]

theorem raw_preds_of_trimmed_eq {r1 r2 : RawLine} (h : r2.trimmed = r1.trimmed) :
    r2.is_header = r1.is_header ∧ r2.is_bullet = r1.is_bullet ∧
    r2.is_todo = r1.is_todo ∧ r2.is_list_item = r1.is_list_item ∧
    r2.contains_marker = r1.contains_marker ∧ r2.is_empty = r1.is_empty := by
  unfold RawLine.is_header RawLine.is_bullet RawLine.is_todo RawLine.is_list_item
    RawLine.contains_marker RawLine.is_empty
  rw [h]
  exact ⟨rfl, rfl, rfl, by unfold RawLine.is_bullet RawLine.is_todo; rw [h], rfl, rfl⟩

theorem from_string_num (l : String) :
    (RawLine.from_string l).num_indent =
      if strStarts "#" (trimList l.data) then countLeadHash (trimList l.data)
      else countLeadWs l.data := rfl

theorem render_num_of_header (s : ParseState) (l : String)
    (h : (RawLine.from_string l).is_header = true) :
    (RawLine.from_string (renderLine (emittedLine s l))).num_indent =
      (RawLine.from_string l).num_indent := by
  have ht := trimList_renderLine_emitted s l
  have hh : strStarts "#" (trimList l.data) = true := h
  rw [from_string_num, from_string_num, ht, if_pos hh, if_pos hh]

/-! ## Reparse correspondence: branch unfolding -/

theorem emittedLine_header {s : ParseState} {l : String}
    (h : (RawLine.from_string l).is_header = true) :
    emittedLine s l = FormattedLine.from_raw (RawLine.from_string l)
      (determine_new_header_indent s.document (RawLine.from_string l)) := by
  unfold emittedLine
  dsimp only
  rw [if_pos h]

theorem emittedLine_list {s : ParseState} {l : String}
    (h1 : (RawLine.from_string l).is_header = false)
    (h2 : (RawLine.from_string l).is_list_item = true) :
    emittedLine s l = FormattedLine.from_raw (RawLine.from_string l)
      (determine_new_bullet_point_indent s.document.last_block (RawLine.from_string l)) := by
  unfold emittedLine
  dsimp only
  rw [if_neg (by simp [h1]), if_pos h2]

theorem emittedLine_marker {s : ParseState} {l : String}
    (h1 : (RawLine.from_string l).is_header = false)
    (h2 : (RawLine.from_string l).is_list_item = false)
    (h3 : (RawLine.from_string l).contains_marker = true) :
    emittedLine s l = parse_text_line s.document.last_block (RawLine.from_string l) := by
  unfold emittedLine
  dsimp only
  rw [if_neg (by simp [h1]), if_neg (by simp [h2]), if_pos h3]

theorem emittedLine_plain_normal {s : ParseState} {l : String}
    (h1 : (RawLine.from_string l).is_header = false)
    (h2 : (RawLine.from_string l).is_list_item = false)
    (h3 : (RawLine.from_string l).contains_marker = false)
    (hctx : s.context = Context.Normal) :
    emittedLine s l = parse_text_line s.document.last_block (RawLine.from_string l) := by
  unfold emittedLine
  dsimp only
  rw [if_neg (by simp [h1]), if_neg (by simp [h2]), if_neg (by simp [h3]), hctx]

theorem emittedLine_plain_fenced {s : ParseState} {l : String} {base : Nat}
    (h1 : (RawLine.from_string l).is_header = false)
    (h2 : (RawLine.from_string l).is_list_item = false)
    (h3 : (RawLine.from_string l).contains_marker = false)
    (hctx : s.context = Context.HandlingFencedFiletype base) :
    emittedLine s l = preformattedLine s.document.last_block.contents_indent_level base
      (RawLine.from_string l) := by
  unfold emittedLine
  dsimp only
  rw [if_neg (by simp [h1]), if_neg (by simp [h2]), if_neg (by simp [h3]), hctx]

theorem step_doc_header {s : ParseState} {l : String}
    (h : (RawLine.from_string l).is_header = true) :
    (step s l).document = s.document.add_block (Block.new (emittedLine s l)) := by
  unfold step
  dsimp only
  rw [if_pos h]

theorem step_doc_other {s : ParseState} {l : String}
    (h : (RawLine.from_string l).is_header = false) :
    (step s l).document =
      s.document.updateLast (fun b => b.add_line (emittedLine s l)) := by
  unfold step
  dsimp only
  rw [if_neg (by simp [h])]

theorem step_context (s : ParseState) (l : String) :
    (step s l).context = nextContext s l := rfl

theorem nextContext_header {s : ParseState} {l : String}
    (h : (RawLine.from_string l).is_header = true) :
    nextContext s l = s.context := by
  unfold nextContext
  dsimp only
  rw [if_neg (by simp [h])]

theorem nextContext_list {s : ParseState} {l : String}
    (h : (RawLine.from_string l).is_list_item = true) :
    nextContext s l = s.context := by
  unfold nextContext
  dsimp only
  rw [if_neg (by simp [h])]

theorem nextContext_plain {s : ParseState} {l : String}
    (h : (RawLine.from_string l).contains_marker = false) :
    nextContext s l = s.context := by
  unfold nextContext
  dsimp only
  rw [if_neg (by simp [h])]

theorem nextContext_marker {s : ParseState} {l : String}
    (h1 : (RawLine.from_string l).is_header = false)
    (h2 : (RawLine.from_string l).is_list_item = false)
    (h3 : (RawLine.from_string l).contains_marker = true) :
    nextContext s l = match s.context with
      | Context.Normal => Context.HandlingFencedFiletype (RawLine.from_string l).num_indent
      | Context.HandlingFencedFiletype _ => Context.Normal := by
  unfold nextContext
  dsimp only
  rw [if_pos (by simp [h1, h2, h3])]

/-! ## Reparse correspondence: one parsing step -/

theorem from_raw_type_eq {r1 r2 : RawLine} (htr : r2.trimmed = r1.trimmed) (k1 k2 : Nat) :
    (FormattedLine.from_raw r2 k2).line_type = (FormattedLine.from_raw r1 k1).line_type := by
  obtain ⟨hH, hB, hT, _, _, _⟩ := raw_preds_of_trimmed_eq htr
  unfold FormattedLine.from_raw
  dsimp only
  rw [hH, hB, hT]

theorem from_raw_RBody {r1 r2 : RawLine} (htr : r2.trimmed = r1.trimmed) (k : Nat) :
    RBody (FormattedLine.from_raw r1 k) (FormattedLine.from_raw r2 k) :=
  ⟨from_raw_type_eq htr k k, fun _ => rfl⟩

theorem RBlock_add_line {b1 b2 : Block} {f1 f2 : FormattedLine}
    (hb : RBlock b1 b2) (hf : RBody f1 f2) :
    RBlock (b1.add_line f1) (b2.add_line f2) :=
  ⟨hb.1, forall2_append_single hb.2 hf⟩

theorem parse_text_line_sim {b1 b2 : Block} {r1 r2 : RawLine}
    (hb : RBlock b1 b2) (htr : r2.trimmed = r1.trimmed) :
    RBody (parse_text_line b1 r1) (parse_text_line b2 r2) := by
  obtain ⟨_, _, _, _, _, hE⟩ := raw_preds_of_trimmed_eq htr
  have hcont := RBlock_contents_eq hb
  have hlast := forall2_getLast? hb.2
  unfold parse_text_line Block.last_line
  cases hg1 : b1.lines.getLast? with
  | none =>
    cases hg2 : b2.lines.getLast? with
    | none =>
      dsimp only
      rw [hcont]
      exact from_raw_RBody htr _
    | some p2 => rw [hg1, hg2] at hlast; exact absurd hlast (by simp [ROpt])
  | some p1 =>
    cases hg2 : b2.lines.getLast? with
    | none => rw [hg1, hg2] at hlast; exact absurd hlast (by simp [ROpt])
    | some p2 =>
      rw [hg1, hg2] at hlast
      obtain ⟨hty, _⟩ := hlast
      have hli : p2.is_list_item = p1.is_list_item := by
        unfold FormattedLine.is_list_item
        rw [hty]
      dsimp only
      rw [hli, hE]
      by_cases hc : (p1.is_list_item && !r1.is_empty) = true
      · rw [if_pos hc, if_pos hc]
        refine ⟨rfl, fun hfalse => ?_⟩
        · simp [listish] at hfalse
      · rw [if_neg hc, if_neg hc]
        split_ifs <;> (rw [hcont]; exact from_raw_RBody htr _)

theorem listish_from_raw_list {r : RawLine} {k : Nat}
    (h1 : r.is_header = false) (h2 : r.is_list_item = true) :
    listish (FormattedLine.from_raw r k).line_type = true := by
  unfold FormattedLine.from_raw listish
  dsimp only
  rw [h1]
  have h2b := h2
  unfold RawLine.is_list_item at h2b
  by_cases hb : r.is_bullet = true
  · simp [hb]
  · have ht : r.is_todo = true := by
      rw [Bool.or_eq_true] at h2b
      rcases h2b with hx | hx
      · exact absurd hx hb
      · exact hx
    simp [hb, ht]

theorem step_sim_aux (s1 s2 : ParseState) (l l2 : String)
    (hblocks : List.Forall₂ RBlock s1.document.blocks s2.document.blocks)
    (hctx : s1.context = Context.Normal ↔ s2.context = Context.Normal)
    (htrim : (RawLine.from_string l2).trimmed = (RawLine.from_string l).trimmed)
    (hnum_h : (RawLine.from_string l).is_header = true →
      (RawLine.from_string l2).num_indent = (RawLine.from_string l).num_indent) :
    RBody (emittedLine s1 l) (emittedLine s2 l2) ∧
    RState (step s1 l) (step s2 l2) := by
  obtain ⟨hH, hB, hT, hL, hM, hE⟩ := raw_preds_of_trimmed_eq htrim
  have hlastb := forall2_last_block hblocks
  by_cases h1 : (RawLine.from_string l).is_header = true
  · -- header line: a new block is started on both sides
    have h1b : (RawLine.from_string l2).is_header = true := by rw [hH, h1]
    have hnum := hnum_h h1
    have hdet := determine_header_eq hblocks hnum
    have hbody : RBody (emittedLine s1 l) (emittedLine s2 l2) := by
      rw [emittedLine_header h1, emittedLine_header h1b]
      exact ⟨by rw [from_raw_type_eq htrim], fun _ => by
        unfold FormattedLine.from_raw
        dsimp only
        rw [hdet]⟩
    refine ⟨hbody, ?_, ?_⟩
    · rw [step_doc_header h1, step_doc_header h1b]
      unfold Document.add_block
      dsimp only
      refine forall2_append_single hblocks ?_
      refine ⟨?_, List.Forall₂.nil⟩
      rw [emittedLine_header h1, emittedLine_header h1b]
      refine ROpt_some ⟨by rw [from_raw_type_eq htrim], ?_, ?_⟩
      · unfold FormattedLine.from_raw
        dsimp only
        rw [hdet]
      · unfold FormattedLine.from_raw
        dsimp only
        rw [hnum]
    · rw [step_context, step_context, nextContext_header h1, nextContext_header h1b]
      exact hctx
  · have h1f : (RawLine.from_string l).is_header = false := by
      cases hx : (RawLine.from_string l).is_header
      · rfl
      · exact absurd hx h1
    have h1bf : (RawLine.from_string l2).is_header = false := by rw [hH, h1f]
    by_cases h2 : (RawLine.from_string l).is_list_item = true
    · -- list item: appended to the last block on both sides
      have h2b : (RawLine.from_string l2).is_list_item = true := by rw [hL, h2]
      have hbody : RBody (emittedLine s1 l) (emittedLine s2 l2) := by
        rw [emittedLine_list h1f h2, emittedLine_list h1bf h2b]
        refine ⟨by rw [from_raw_type_eq htrim], fun hfalse => ?_⟩
        rw [listish_from_raw_list h1f h2] at hfalse
        cases hfalse
      refine ⟨hbody, ?_, ?_⟩
      · rw [step_doc_other h1f, step_doc_other h1bf]
        unfold Document.updateLast
        dsimp only
        exact forall2_append_single (forall2_dropLast hblocks)
          (RBlock_add_line hlastb hbody)
      · rw [step_context, step_context, nextContext_list h2, nextContext_list h2b]
        exact hctx
    · have h2f : (RawLine.from_string l).is_list_item = false := by
        cases hx : (RawLine.from_string l).is_list_item
        · rfl
        · exact absurd hx h2
      have h2bf : (RawLine.from_string l2).is_list_item = false := by rw [hL, h2f]
      by_cases h3 : (RawLine.from_string l).contains_marker = true
      · -- fence marker: plain-text resolution plus a fence toggle on both sides
        have h3b : (RawLine.from_string l2).contains_marker = true := by rw [hM, h3]
        have hbody : RBody (emittedLine s1 l) (emittedLine s2 l2) := by
          rw [emittedLine_marker h1f h2f h3, emittedLine_marker h1bf h2bf h3b]
          exact parse_text_line_sim hlastb htrim
        refine ⟨hbody, ?_, ?_⟩
        · rw [step_doc_other h1f, step_doc_other h1bf]
          unfold Document.updateLast
          dsimp only
          exact forall2_append_single (forall2_dropLast hblocks)
            (RBlock_add_line hlastb hbody)
        · rw [step_context, step_context, nextContext_marker h1f h2f h3,
            nextContext_marker h1bf h2bf h3b]
          cases hc1 : s1.context with
          | Normal =>
            have hc2 : s2.context = Context.Normal := hctx.mp hc1
            rw [hc2]
            simp
          | HandlingFencedFiletype base1 =>
            cases hc2 : s2.context with
            | Normal =>
              have := hctx.mpr hc2
              rw [hc1] at this
              cases this
            | HandlingFencedFiletype base2 => simp
      · have h3f : (RawLine.from_string l).contains_marker = false := by
          cases hx : (RawLine.from_string l).contains_marker
          · rfl
          · exact absurd hx h3
        have h3bf : (RawLine.from_string l2).contains_marker = false := by rw [hM, h3f]
        have hbody : RBody (emittedLine s1 l) (emittedLine s2 l2) := by
          cases hc1 : s1.context with
          | Normal =>
            have hc2 : s2.context = Context.Normal := hctx.mp hc1
            rw [emittedLine_plain_normal h1f h2f h3f hc1,
              emittedLine_plain_normal h1bf h2bf h3bf hc2]
            exact parse_text_line_sim hlastb htrim
          | HandlingFencedFiletype base1 =>
            cases hc2 : s2.context with
            | Normal =>
              have := hctx.mpr hc2
              rw [hc1] at this
              cases this
            | HandlingFencedFiletype base2 =>
              rw [emittedLine_plain_fenced h1f h2f h3f hc1,
                emittedLine_plain_fenced h1bf h2bf h3bf hc2]
              exact ⟨rfl, fun _ => by
                unfold preformattedLine
                dsimp only
                rw [RBlock_contents_eq hlastb]⟩
        refine ⟨hbody, ?_, ?_⟩
        · rw [step_doc_other h1f, step_doc_other h1bf]
          unfold Document.updateLast
          dsimp only
          exact forall2_append_single (forall2_dropLast hblocks)
            (RBlock_add_line hlastb hbody)
        · rw [step_context, step_context, nextContext_plain h3f, nextContext_plain h3bf]
          exact hctx

theorem step_sim (s1 s2 : ParseState) (l : String) (h : RState s1 s2) :
    RBody (emittedLine s1 l) (emittedLine s2 (renderLine (emittedLine s1 l))) ∧
    RState (step s1 l) (step s2 (renderLine (emittedLine s1 l))) :=
  step_sim_aux s1 s2 l (renderLine (emittedLine s1 l)) h.1 h.2
    (render_trimmed_eq s1 l) (render_num_of_header s1 l)

/-! ## Reparse correspondence: the whole trace -/

theorem lineIdem_of_RBody {a b : FormattedLine} (h : RBody a b) : lineIdem a b = true := by
  unfold lineIdem
  rw [h.1]
  by_cases hl : listish a.line_type = true
  · simp [hl]
  · have hlf : listish a.line_type = false := by
      cases hx : listish a.line_type
      · rfl
      · exact absurd hx hl
    simp [hlf, h.2 hlf]

theorem trace_sim (ls : List String) :
    ∀ s1 s2 : ParseState, RState s1 s2 →
      pairwiseIdem (traceLines s1 ls)
        (traceLines s2 ((traceLines s1 ls).map renderLine)) = true := by
  induction ls with
  | nil => intro s1 s2 h; rfl
  | cons l ls ih =>
    intro s1 s2 h
    obtain ⟨hline, hstep⟩ := step_sim s1 s2 l h
    simp only [traceLines, List.map_cons, pairwiseIdem, Bool.and_eq_true]
    exact ⟨lineIdem_of_RBody hline, ih _ _ hstep⟩

/-! ## Splitting the rendered text recovers the rendered lines -/

theorem splitNl_ne_nil (x : List Char) : splitNl x ≠ [] := by
  induction x with
  | nil => simp [splitNl]
  | cons c cs ih =>
    unfold splitNl
    split_ifs
    · simp
    · cases hs : splitNl cs <;> simp

theorem splitNl_no_nl (x : List Char) : ∀ p ∈ splitNl x, ('\n') ∉ p := by
  induction x with
  | nil =>
    intro p hp
    simp [splitNl] at hp
    simp [hp]
  | cons c cs ih =>
    intro p hp
    by_cases hc : c = '\n'
    · rw [splitNl, if_pos hc] at hp
      rcases List.mem_cons.mp hp with rfl | hmem
      · simp
      · exact ih p hmem
    · rw [splitNl, if_neg hc] at hp
      cases hs : splitNl cs with
      | nil => exact absurd hs (splitNl_ne_nil cs)
      | cons q qs =>
        rw [hs] at hp
        rcases List.mem_cons.mp hp with rfl | hmem
        · intro hin
          rcases List.mem_cons.mp hin with heq | hin2
          · exact hc heq.symm
          · exact ih q (hs ▸ List.mem_cons_self q qs) hin2
        · exact ih p (hs ▸ List.mem_cons_of_mem q hmem)

theorem splitNl_single (x : List Char) (h : ('\n') ∉ x) : splitNl x = [x] := by
  induction x with
  | nil => rfl
  | cons c cs ih =>
    have hc : ¬ c = '\n' := fun hq => h (hq ▸ List.mem_cons_self c cs)
    have hcs : ('\n') ∉ cs := fun hq => h (List.mem_cons_of_mem c hq)
    rw [splitNl, if_neg hc, ih hcs]

theorem splitNl_append (x r : List Char) (h : ('\n') ∉ x) :
    splitNl (x ++ '\n' :: r) = x :: splitNl r := by
  induction x with
  | nil => simp [splitNl]
  | cons c cs ih =>
    have hc : ¬ c = '\n' := fun hq => h (hq ▸ List.mem_cons_self c cs)
    have hcs : ('\n') ∉ cs := fun hq => h (List.mem_cons_of_mem c hq)
    rw [List.cons_append, splitNl, if_neg hc, ih hcs]

theorem ljoin_split (ps : List (List Char)) (hne : ps ≠ [])
    (h : ∀ x ∈ ps, ('\n') ∉ x) : splitNl (ljoin ps) = ps := by
  induction ps with
  | nil => exact absurd rfl hne
  | cons x xs ih =>
    cases xs with
    | nil => exact splitNl_single x (h x (List.mem_cons_self x []))
    | cons y ys =>
      have hx : ('\n') ∉ x := h x (List.mem_cons_self x (y :: ys))
      have hrest : ∀ z ∈ y :: ys, ('\n') ∉ z :=
        fun z hz => h z (List.mem_cons_of_mem x hz)
      rw [ljoin, splitNl_append x _ hx, ih (by simp) hrest]
      simp

theorem mapExceptLast_id (f : List Char → List Char) (ps : List (List Char))
    (h : ∀ x ∈ ps, f x = x) : mapExceptLast f ps = ps := by
  induction ps with
  | nil => rfl
  | cons x xs ih =>
    cases xs with
    | nil => rfl
    | cons y ys =>
      rw [mapExceptLast, h x (List.mem_cons_self x (y :: ys)),
        ih (fun z hz => h z (List.mem_cons_of_mem x hz))]
      simp

theorem rustLines_joinLines (rl : List String)
    (hnl : ∀ x ∈ rl, ('\n') ∉ x.data)
    (hcr : ∀ x ∈ rl, ¬ x.data.getLast? = some '\r')
    (hlast : ¬ rl.getLast? = some "") :
    rustLines (joinLines rl) = rl := by
  cases rl with
  | nil => rfl
  | cons a as =>
    unfold rustLines joinLines
    dsimp only
    have hsplit : splitNl (String.mk (ljoin (List.map String.data (a :: as)))).data =
        List.map String.data (a :: as) := by
      refine ljoin_split _ (by simp) ?_
      intro x hx
      obtain ⟨y, hy, rfl⟩ := List.mem_map.mp hx
      exact hnl y hy
    rw [hsplit]
    have hstrip : mapExceptLast stripCR (List.map String.data (a :: as)) =
        List.map String.data (a :: as) := by
      refine mapExceptLast_id _ _ ?_
      intro x hx
      obtain ⟨y, hy, rfl⟩ := List.mem_map.mp hx
      unfold stripCR
      rw [if_neg (hcr y hy)]
    rw [hstrip]
    have hif : ¬ (List.map String.data (a :: as)).getLast? = some [] := by
      intro hq
      rw [List.getLast?_map] at hq
      cases hg : (a :: as).getLast? with
      | none => rw [hg] at hq; cases hq
      | some y =>
        rw [hg] at hq
        have hy : y.data = [] := by
          simpa using hq
        have hy2 : y = "" := by
          cases y with
          | mk d =>
            have hd : d = [] := hy
            rw [hd]
        rw [hg, hy2] at hlast
        exact hlast rfl
    rw [if_neg hif, List.map_map]
    have hcomp : String.mk ∘ String.data = (id : String → String) := funext fun x => rfl
    rw [hcomp, List.map_id]

/-! ## Rendered lines of a parse are clean for resplitting -/

theorem mem_trimList {c : Char} {x : List Char} (h : c ∈ trimList x) : c ∈ x :=
  ((trimList_prefix_dropWhile x).sublist.trans (List.dropWhile_suffix isWs).sublist).subset h

theorem mapExceptLast_mem {f : List Char → List Char} {p : List Char}
    {ps : List (List Char)} (h : p ∈ mapExceptLast f ps) :
    p ∈ ps ∨ ∃ q ∈ ps, p = f q := by
  induction ps generalizing p with
  | nil => cases h
  | cons x xs ih =>
    cases xs with
    | nil =>
      left
      exact h
    | cons y ys =>
      have heq : mapExceptLast f (x :: y :: ys) = f x :: mapExceptLast f (y :: ys) := rfl
      rw [heq] at h
      rcases List.mem_cons.mp h with rfl | hmem
      · right
        exact ⟨x, List.mem_cons_self x (y :: ys), rfl⟩
      · rcases ih hmem with hin | ⟨q, hq, rfl⟩
        · left
          exact List.mem_cons_of_mem x hin
        · right
          exact ⟨q, List.mem_cons_of_mem x hq, rfl⟩

theorem stripCR_subset (q : List Char) : (stripCR q) ⊆ q := by
  unfold stripCR
  split_ifs
  · exact (List.dropLast_sublist q).subset
  · exact fun c hc => hc

theorem rustLines_no_nl (s : String) : ∀ p ∈ rustLines s, ('\n') ∉ p.data := by
  intro p hp
  unfold rustLines at hp
  dsimp only at hp
  have hp2 : ∃ pd ∈ mapExceptLast stripCR (splitNl s.data), p = String.mk pd := by
    split_ifs at hp
    · obtain ⟨pd, hpd, rfl⟩ := List.mem_map.mp hp
      exact ⟨pd, (List.dropLast_sublist _).subset hpd, rfl⟩
    · obtain ⟨pd, hpd, rfl⟩ := List.mem_map.mp hp
      exact ⟨pd, hpd, rfl⟩
  obtain ⟨pd, hpd2, rfl⟩ := hp2
  rcases mapExceptLast_mem hpd2 with hin | ⟨q, hq, rfl⟩
  · exact splitNl_no_nl s.data pd hin
  · intro hc
    exact splitNl_no_nl s.data q hq (stripCR_subset q hc)

theorem getLast?_replicate_space (m : Nat) :
    (List.replicate m ' ').getLast? = if m = 0 then none else some ' ' := by
  rw [List.getLast?_eq_head?_reverse, List.reverse_replicate]
  cases m with
  | zero => rfl
  | succ k => rw [List.replicate_succ]; simp

theorem docLines_parse (s : String) :
    docLines (parse_document s) = traceLines initState (rustLines s) := by
  unfold parse_document parseState
  rw [docLines_foldl _ initState (by simp [initState, Document.new])]
  rfl

theorem trace_shape (ls : List String) :
    ∀ s : ParseState, ∀ f ∈ traceLines s ls,
      ∃ n, ∃ l ∈ ls, f.contents.data = List.replicate n ' ' ++ trimList l.data := by
  induction ls with
  | nil => intro s f hf; cases hf
  | cons l ls ih =>
    intro s f hf
    rw [traceLines] at hf
    rcases List.mem_cons.mp hf with rfl | hmem
    · obtain ⟨n, hn⟩ := emitted_shape s l
      exact ⟨n, l, List.mem_cons_self l ls, hn⟩
    · obtain ⟨n, l2, hl2, hn⟩ := ih (step s l) f hmem
      exact ⟨n, l2, List.mem_cons_of_mem l hl2, hn⟩

theorem rendered_line_props (s : String) (f : FormattedLine)
    (hf : f ∈ docLines (parse_document s)) :
    ('\n') ∉ (renderLine f).data ∧ ¬ (renderLine f).data.getLast? = some '\r' := by
  rw [docLines_parse] at hf
  obtain ⟨n, l, hl, hshape⟩ := trace_shape (rustLines s) initState f hf
  have hdata : (renderLine f).data =
      List.replicate (2 * f.indent_level + n) ' ' ++ trimList l.data := by
    rw [renderLine_data, hshape, ← List.append_assoc, ← List.replicate_add]
  constructor
  · rw [hdata]
    intro hc
    rcases List.mem_append.mp hc with hc1 | hc2
    · have := (List.eq_of_mem_replicate hc1)
      cases this
    · exact rustLines_no_nl s l hl (mem_trimList hc2)
  · rw [hdata]
    cases ht : trimList l.data with
    | nil =>
      rw [List.append_nil, getLast?_replicate_space]
      split_ifs
      · intro hq; cases hq
      · intro hq
        simp at hq
    | cons c cs =>
      rw [List.getLast?_append_of_ne_nil _ (by simp)]
      intro hq
      have hc := trimList_getLast_not_ws l.data '\r' (ht ▸ hq)
      simp [isWs] at hc

/-! ## Claim C8: restricted idempotence of re-parsing the rendered output -/

/-- Claim C8 (amended): for any input whose rendered output does not end in
an empty line, re-parsing the rendered output yields a document with the
same number of lines, identical line_type for every line, and identical
indent_level for every line whose type is not ListBulletPoint, ListTodoItem
or ListContinuousLine.  List items and their continuation lines may change
level, so full idempotence of the indent_level assignment fails. -/
theorem c8_reparse_preserves_types_and_nonlist_levels (contents : String)
    (h : ¬ ((docLines (parse_document contents)).map renderLine).getLast? = some "") :
    pairwiseIdem (docLines (parse_document contents))
      (docLines (parse_document (render (parse_document contents)))) = true := by
  have hrl : rustLines (render (parse_document contents)) =
      (docLines (parse_document contents)).map renderLine := by
    unfold render joinLines
    refine rustLines_joinLines _ ?_ ?_ h
    · intro x hx
      obtain ⟨f, hf, rfl⟩ := List.mem_map.mp hx
      exact (rendered_line_props contents f hf).1
    · intro x hx
      obtain ⟨f, hf, rfl⟩ := List.mem_map.mp hx
      exact (rendered_line_props contents f hf).2
  have hd2 : docLines (parse_document (render (parse_document contents))) =
      traceLines initState ((docLines (parse_document contents)).map renderLine) := by
    rw [docLines_parse, hrl]
  rw [hd2, docLines_parse]
  exact trace_sim (rustLines contents) initState initState
    ⟨List.Forall₂.cons RBlock_empty List.Forall₂.nil, Iff.rfl⟩

/-- Witness for claim C8 at a concrete three-line document. -/
theorem c8_witness :
    ¬ ((docLines (parse_document "# T\n- a\nx")).map renderLine).getLast? = some "" ∧
    pairwiseIdem (docLines (parse_document "# T\n- a\nx"))
      (docLines (parse_document (render (parse_document "# T\n- a\nx")))) = true :=
  ⟨by decide, c8_reparse_preserves_types_and_nonlist_levels "# T\n- a\nx" (by decide)⟩

/-- Counterexample to claim C8 as stated: re-parsing the rendered output of
the eight-line document changes the last bullet's indent level from 3 to 2.
In the first parse the last bullet resolves through the recorded original
raw indent 5 of the continuation line (level 3); in the rendered output all
raw indents are normalised to two spaces per level, so the re-parse sees the
previous bullet at a smaller raw indent and assigns level 1 + 1 = 2. -/
theorem c8_counterexample :
    (docLines (parse_document
        "- a\n  - b\n    - c\n      - d\n     x\n- e\n       - f\n     - x")).map
      (fun f => f.indent_level) = [0, 1, 2, 3, 3, 0, 1, 3] ∧
    (docLines (parse_document (render (parse_document
        "- a\n  - b\n    - c\n      - d\n     x\n- e\n       - f\n     - x")))).map
      (fun f => f.indent_level) = [0, 1, 2, 3, 3, 0, 1, 2] ∧
    ([0, 1, 2, 3, 3, 0, 1, 3] : List Nat) ≠ [0, 1, 2, 3, 3, 0, 1, 2] :=
  ⟨by decide, by decide, by decide⟩
